import Mathlib

/-!
Shallow embedding of the batch-inference pipeline of `inference.py`:
the batch packer `pad_sequences`, the trim/reorder/save logic at the end
of `main`, the `MeasureTime` context manager, and the input-line
selection `sentences[1::2]`.  Tensors are modelled as lists (a 2-D
tensor as a list of rows; a mel spectrogram as its list of time
columns, so that `mel[:, :length]` is `List.take length`), machine
integers as `Nat`/`Int`, and Python exceptions as an `Except` error
value.
-/

/-- Python exception outcomes of the embedded code.  `indexError` models the
`IndexError` raised by indexing an empty tensor (`text_lengths[0]` in
`pad_sequences` when `sequences` is empty).  The remaining constructors name
the error taxonomy of the specification (`EmptyBatchError`,
`InvalidSequenceError`, `LengthOverflowError`); no exception class with any of
those names exists in the source, and the code model never produces them —
they are present only so that the specification's claims about them can be
stated and compared with what the code does. -/
inductive PyError where
  | indexError
  | emptyBatchError
  | invalidSequenceError
  | lengthOverflowError
deriving DecidableEq, Repr

/-- Ordering on (length, original index) pairs used by the executable model of
`torch.sort(..., descending=True)`: longer first, ties broken by smaller
original index.  The tie-break makes the model deterministic; the source calls
`torch.sort` without `stable=True`, whose contract fixes only the descending
order of the values, not the order of tied indices (see `SortSpecD`), and this
model is one admissible refinement of that contract. -/
def sortRel (a b : Nat × Nat) : Prop :=
  b.1 < a.1 ∨ (a.1 = b.1 ∧ a.2 ≤ b.2)

instance : DecidableRel sortRel := fun a b =>
  decidable_of_iff (b.1 < a.1 ∨ (a.1 = b.1 ∧ a.2 ≤ b.2)) Iff.rfl

instance : IsTotal (Nat × Nat) sortRel :=
  ⟨by intro a b; unfold sortRel; omega⟩

instance : IsTrans (Nat × Nat) sortRel :=
  ⟨by intro a b c; unfold sortRel; omega⟩

/-- The list of (value, original index) pairs of `values`, sorted by
`sortRel`: the working structure of the `torch.sort` model. -/
def sortedPairs (values : List Nat) : List (Nat × Nat) :=
  List.insertionSort sortRel (values.enum.map (fun p => (p.2, p.1)))

/-- Executable model of `torch.sort(torch.IntTensor(values), dim=0,
descending=True)`: returns the sorted values together with the original
indices (`ids_sorted_decreasing`).  Implemented by pairing each value with its
index and insertion-sorting by `sortRel`. -/
def torch_sort_desc (values : List Nat) : List Nat × List Nat :=
  ((sortedPairs values).map Prod.fst, (sortedPairs values).map Prod.snd)

/-- The documented contract of `torch.sort(descending=True)` without the
`stable` flag: the returned index list is some permutation of `0..n-1`, the
returned values are the input gathered by those indices, and the values are in
descending order.  The order of indices carrying equal values is NOT fixed by
this contract. -/
def SortSpecD (values outVals outIds : List Nat) : Prop :=
  outIds.Perm (List.range values.length) ∧
  outVals = outIds.map (fun i => values.getD i 0) ∧
  outVals.Pairwise (fun a b => b ≤ a)

instance (values outVals outIds : List Nat) :
    Decidable (SortSpecD values outVals outIds) := by
  unfold SortSpecD; infer_instance

/-- Embedding of `pad_sequences` (`inference.py` lines 83–96).  Sorts the
sequence lengths descending, takes `max_text_len = text_lengths[0]` (indexing
an empty tensor raises `IndexError`, modelled by the `none` branch), then for
each sorted index pads `sequences[ids_sorted_decreasing[i]]` on the right with
zeros to `max_text_len` (`np.pad(text, [0, max_text_len - len(text)],
mode='constant')`).  Returns `(texts, text_lengths, ids_sorted_decreasing)`. -/
def pad_sequences (sequences : List (List Int)) :
    Except PyError (List (List Int) × List Nat × List Nat) :=
  let text_lengths := (torch_sort_desc (sequences.map List.length)).1
  let ids_sorted_decreasing := (torch_sort_desc (sequences.map List.length)).2
  match text_lengths.head? with
  | none => Except.error PyError.indexError
  | some max_text_len =>
      Except.ok
        (ids_sorted_decreasing.map (fun i =>
          let text := sequences.getD i []
          text ++ List.replicate (max_text_len - text.length) 0),
         text_lengths, ids_sorted_decreasing)

/-- Embedding of `mels = [mel[:, :length] for mel, length in zip(mels,
mel_lengths)]` (`inference.py` line 188).  A mel is its list of time columns,
so `mel[:, :length]` is `take length`; like the Python slice, `take` clamps a
length that exceeds the number of columns. -/
def trim_outputs {α : Type} (mels : List (List α)) (mel_lengths : List Nat) :
    List (List α) :=
  (mels.zip mel_lengths).map (fun p => p.1.take p.2)

/-- Embedding of `mels = [mels[ids_sorted_decreasing.index(i)] for i in
range(len(ids_sorted_decreasing))]` (`inference.py` line 189): position `i` of
the result is the row at the sorted position where `ids_sorted_decreasing`
holds original index `i`. -/
def reorder_outputs {α : Type} (mels : List (List α)) (ids : List Nat) :
    List (List α) :=
  (List.range ids.length).map (fun i => mels.getD (ids.indexOf i) [])

/-- Embedding of the persistence step (`inference.py` lines 186–190): trim
each row to its reported length, restore original order, and save ONE file
`eval_mel.npy` holding `np.concatenate(mels, axis=-1)` — the concatenation of
the ordered trimmed outputs along the time axis, modelled by `List.flatten`
on the column lists. -/
def main_save {α : Type} (mels : List (List α)) (mel_lengths : List Nat)
    (ids : List Nat) : List (String × List α) :=
  [("eval_mel.npy",
    (reorder_outputs (trim_outputs mels mel_lengths) ids).flatten)]

/-- A specification-side unpacker, following §4.2 of the spec rather than the
source.  Modelled from the spec: fails with `LengthOverflowError` "if any
reported valid length exceeds the row's allocated width", otherwise trims each
row to its reported length.  It exists to be compared with the source's
`trim_outputs`, which never fails. -/
def unpack_spec {α : Type} (mels : List (List α)) (mel_lengths : List Nat) :
    Except PyError (List (List α)) :=
  if (mels.zip mel_lengths).all (fun p => p.2 ≤ p.1.length) then
    Except.ok ((mels.zip mel_lengths).map (fun p => p.1.take p.2))
  else
    Except.error PyError.lengthOverflowError

/-- The measurements dictionary of `main`, as an association list; Python's
`measurements[key] = v` is modelled by consing, and lookup returns the most
recent binding, matching dict overwrite semantics. -/
def setMeasurement (m : List (String × Int)) (key : String) (v : Int) :
    List (String × Int) :=
  (key, v) :: m

/-- Lookup in the measurements dictionary (most recent binding wins). -/
def getMeasurement (m : List (String × Int)) (key : String) : Option Int :=
  (m.find? (fun p => p.1 == key)).map Prod.snd

/-- State of a `MeasureTime` context manager after `__enter__` (`inference.py`
lines 113–121): the key and the recorded start time `t0`. -/
structure MeasureTimeCM where
  key : String
  t0 : Int

/-- `MeasureTime.__enter__` at wall-clock time `now`: records `t0`. -/
def MeasureTimeCM.enterAt (key : String) (now : Int) : MeasureTimeCM :=
  ⟨key, now⟩

/-- `MeasureTime.__exit__` at wall-clock time `now` (`inference.py` lines
122–124): stores the elapsed time under the key, whatever exception
information it was handed. -/
def MeasureTimeCM.exitAt (self : MeasureTimeCM) (m : List (String × Int))
    (now : Int) : List (String × Int) :=
  setMeasurement m self.key (now - self.t0)

/-- Embedding of `with MeasureTime(measurements, key): body` (`inference.py`
line 175) following Python's with-statement protocol: `__enter__` runs at time
`tEnter`; the body either returns a value or raises; `__exit__` runs at time
`tExit` on BOTH paths; since `__exit__` returns `None` (falsy), an exception
from the body propagates after `__exit__` has run. -/
def withMeasureTime {E A : Type} (m : List (String × Int)) (key : String)
    (tEnter tExit : Int) (body : Except E A) :
    List (String × Int) × Except E A :=
  let cm := MeasureTimeCM.enterAt key tEnter
  match body with
  | Except.ok a => (cm.exitAt m tExit, Except.ok a)
  | Except.error e => (cm.exitAt m tExit, Except.error e)

/-- Embedding of `sentences = list(map(lambda s: s.strip(), f.readlines()))`
(`inference.py` line 160): every line stripped of surrounding whitespace. -/
def read_sentences (lines : List String) : List String :=
  lines.map String.trim

/-- Embedding of the Python slice `l[1::2]`: the elements at indices
1, 3, 5, …. -/
def sliceOddIdx {α : Type} : List α → List α
  | [] => []
  | [_] => []
  | _ :: b :: rest => b :: sliceOddIdx rest

/-- Embedding of `texts = sentences[1::2]` (`inference.py` line 167) applied
to the raw lines of the input file. -/
def select_texts (lines : List String) : List String :=
  sliceOddIdx (read_sentences lines)

/-! ### Structural lemmas about the sort model -/

theorem sortedPairs_perm (v : List Nat) :
    (sortedPairs v).Perm (v.enum.map (fun p => (p.2, p.1))) :=
  List.perm_insertionSort _ _

theorem sortedPairs_sorted (v : List Nat) :
    List.Sorted sortRel (sortedPairs v) :=
  List.sorted_insertionSort _ _

theorem sortedPairs_length (v : List Nat) :
    (sortedPairs v).length = v.length := by
  have h := (sortedPairs_perm v).length_eq
  simpa using h

theorem mem_sortedPairs {v : List Nat} {p : Nat × Nat}
    (hp : p ∈ sortedPairs v) : p.2 < v.length ∧ v[p.2]? = some p.1 := by
  have hmem := (sortedPairs_perm v).mem_iff.mp hp
  simp only [List.mem_map] at hmem
  obtain ⟨q, hq, hpq⟩ := hmem
  have hget := List.mem_enum_iff_getElem?.mp hq
  subst hpq
  refine ⟨?_, hget⟩
  obtain ⟨h, -⟩ := List.getElem?_eq_some.mp hget
  exact h

theorem mem_sortedPairs_of_getElem {v : List Nat} {i : Nat}
    (hi : i < v.length) : (v.getD i 0, i) ∈ sortedPairs v := by
  refine (sortedPairs_perm v).mem_iff.mpr ?_
  refine List.mem_map.mpr ⟨(i, v.getD i 0), ?_, rfl⟩
  refine List.mem_enum_iff_getElem?.mpr ?_
  have h1 : v[i]? = some v[i] := List.getElem?_eq_getElem hi
  show v[i]? = some (v.getD i 0)
  rw [List.getD_eq_getElem?_getD, h1]
  rfl

theorem torch_sort_desc_ids_perm (v : List Nat) :
    (torch_sort_desc v).2.Perm (List.range v.length) := by
  have h1 : ((sortedPairs v).map Prod.snd).Perm
      ((v.enum.map (fun p => (p.2, p.1))).map Prod.snd) :=
    (sortedPairs_perm v).map _
  have h2 : (v.enum.map (fun p => (p.2, p.1))).map Prod.snd
      = v.enum.map Prod.fst := by
    rw [List.map_map]; rfl
  have h3 : v.enum.map Prod.fst = List.range v.length := List.enum_map_fst v
  show ((sortedPairs v).map Prod.snd).Perm (List.range v.length)
  rw [← h3, ← h2]
  exact h1

theorem torch_sort_desc_value_le_head {v : List Nat} {p : Nat × Nat}
    (hp : p ∈ sortedPairs v) : p.1 ≤ (torch_sort_desc v).1.getD 0 0 := by
  rcases hhead : sortedPairs v with _ | ⟨a, rest⟩
  · rw [hhead] at hp; cases hp
  · have hval : (torch_sort_desc v).1.getD 0 0 = a.1 := by
      show ((sortedPairs v).map Prod.fst).getD 0 0 = a.1
      rw [hhead]; rfl
    rw [hval]
    rcases List.mem_cons.mp (hhead ▸ hp) with rfl | hmem
    · exact Nat.le_refl _
    · have hs := sortedPairs_sorted v
      rw [hhead] at hs
      have hrel := List.rel_of_sorted_cons hs _ hmem
      unfold sortRel at hrel
      omega

theorem torch_sort_desc_head_mem {v : List Nat} (hv : v ≠ []) :
    (torch_sort_desc v).1.getD 0 0 ∈ v := by
  rcases hhead : sortedPairs v with _ | ⟨a, rest⟩
  · exfalso
    have := sortedPairs_length v
    rw [hhead] at this
    exact hv (List.eq_nil_of_length_eq_zero this.symm)
  · have hmem : a ∈ sortedPairs v := by rw [hhead]; exact List.mem_cons_self a rest
    obtain ⟨-, hget⟩ := mem_sortedPairs hmem
    have hval : (torch_sort_desc v).1.getD 0 0 = a.1 := by
      show ((sortedPairs v).map Prod.fst).getD 0 0 = a.1
      rw [hhead]; rfl
    rw [hval]
    exact List.getElem?_mem hget

theorem torch_sort_desc_fst (v : List Nat) :
    (torch_sort_desc v).1 = (sortedPairs v).map Prod.fst := rfl

theorem torch_sort_desc_snd (v : List Nat) :
    (torch_sort_desc v).2 = (sortedPairs v).map Prod.snd := rfl

theorem map_length_getD {ss : List (List Int)} {i : Nat} (hi : i < ss.length) :
    (ss.map List.length).getD i 0 = (ss.getD i []).length := by
  rw [List.getD_eq_getElem?_getD, List.getElem?_map, List.getElem?_eq_getElem hi,
    List.getD_eq_getElem?_getD, List.getElem?_eq_getElem hi]
  rfl

theorem pad_sequences_ok (ss : List (List Int)) (hne : ss ≠ []) :
    pad_sequences ss = Except.ok
      ((torch_sort_desc (ss.map List.length)).2.map (fun i =>
          ss.getD i [] ++ List.replicate
            ((torch_sort_desc (ss.map List.length)).1.getD 0 0
              - (ss.getD i []).length) 0),
       (torch_sort_desc (ss.map List.length)).1,
       (torch_sort_desc (ss.map List.length)).2) := by
  have hlen : (torch_sort_desc (ss.map List.length)).1.length = ss.length := by
    rw [torch_sort_desc_fst, List.length_map, sortedPairs_length, List.length_map]
  rcases htl : (torch_sort_desc (ss.map List.length)).1 with _ | ⟨a, t⟩
  · exfalso
    rw [htl] at hlen
    exact hne (List.eq_nil_of_length_eq_zero hlen.symm)
  · simp only [pad_sequences, htl, List.head?]
    rfl

theorem pad_sequences_ok_ne_nil {ss texts : List (List Int)} {tl ids : List Nat}
    (h : pad_sequences ss = Except.ok (texts, tl, ids)) : ss ≠ [] := by
  rintro rfl
  have hempty : pad_sequences ([] : List (List Int))
      = Except.error PyError.indexError := rfl
  rw [hempty] at h
  exact Except.noConfusion h

theorem pad_sequences_lengths {ss texts : List (List Int)} {tl ids : List Nat}
    (h : pad_sequences ss = Except.ok (texts, tl, ids)) :
    texts.length = ss.length ∧ tl.length = ss.length ∧ ids.length = ss.length := by
  have hok := pad_sequences_ok ss (pad_sequences_ok_ne_nil h)
  rw [h] at hok
  simp only [Except.ok.injEq, Prod.mk.injEq] at hok
  obtain ⟨h1, h2, h3⟩ := hok
  subst h1; subst h2; subst h3
  refine ⟨?_, ?_, ?_⟩ <;>
    simp [torch_sort_desc_fst, torch_sort_desc_snd, sortedPairs_length]

theorem pad_sequences_row {ss texts : List (List Int)} {tl ids : List Nat}
    (h : pad_sequences ss = Except.ok (texts, tl, ids))
    {j : Nat} (hj : j < ss.length) :
    ids.getD j 0 < ss.length ∧
    tl.getD j 0 = (ss.getD (ids.getD j 0) []).length ∧
    (ss.getD (ids.getD j 0) []).length ≤ tl.getD 0 0 ∧
    texts.getD j [] = ss.getD (ids.getD j 0) [] ++
      List.replicate (tl.getD 0 0 - (ss.getD (ids.getD j 0) []).length) 0 := by
  have hok := pad_sequences_ok ss (pad_sequences_ok_ne_nil h)
  rw [h] at hok
  simp only [Except.ok.injEq, Prod.mk.injEq] at hok
  obtain ⟨h1, h2, h3⟩ := hok
  subst h1; subst h2; subst h3
  have hsl : (sortedPairs (ss.map List.length)).length = ss.length := by
    rw [sortedPairs_length, List.length_map]
  have hj2 : j < (sortedPairs (ss.map List.length)).length := by
    rw [hsl]; exact hj
  have hpmem : (sortedPairs (ss.map List.length)).get ⟨j, hj2⟩
      ∈ sortedPairs (ss.map List.length) := List.get_mem _ _ hj2
  obtain ⟨hplt, hpval⟩ := mem_sortedPairs hpmem
  have hpj : (sortedPairs (ss.map List.length))[j]?
      = some ((sortedPairs (ss.map List.length)).get ⟨j, hj2⟩) := by
    rw [List.getElem?_eq_getElem hj2]
    rfl
  have hidj : ((torch_sort_desc (ss.map List.length)).2).getD j 0
      = ((sortedPairs (ss.map List.length)).get ⟨j, hj2⟩).2 := by
    rw [torch_sort_desc_snd, List.getD_eq_getElem?_getD, List.getElem?_map, hpj]
    rfl
  have htlj : ((torch_sort_desc (ss.map List.length)).1).getD j 0
      = ((sortedPairs (ss.map List.length)).get ⟨j, hj2⟩).1 := by
    rw [torch_sort_desc_fst, List.getD_eq_getElem?_getD, List.getElem?_map, hpj]
    rfl
  have hplt2 : ((sortedPairs (ss.map List.length)).get ⟨j, hj2⟩).2 < ss.length := by
    have := hplt
    rw [List.length_map] at this
    exact this
  have hval2 : ((sortedPairs (ss.map List.length)).get ⟨j, hj2⟩).1
      = (ss.getD (((sortedPairs (ss.map List.length)).get ⟨j, hj2⟩).2) []).length := by
    have hstep : (ss.map List.length).getD
        (((sortedPairs (ss.map List.length)).get ⟨j, hj2⟩).2) 0
        = ((sortedPairs (ss.map List.length)).get ⟨j, hj2⟩).1 := by
      rw [List.getD_eq_getElem?_getD, hpval]
      rfl
    rw [← hstep, map_length_getD hplt2]
  have hle : ((sortedPairs (ss.map List.length)).get ⟨j, hj2⟩).1
      ≤ ((torch_sort_desc (ss.map List.length)).1).getD 0 0 :=
    torch_sort_desc_value_le_head hpmem
  have htext : (((torch_sort_desc (ss.map List.length)).2).map (fun i =>
      ss.getD i [] ++ List.replicate
        (((torch_sort_desc (ss.map List.length)).1).getD 0 0
          - (ss.getD i []).length) 0)).getD j []
      = ss.getD (((sortedPairs (ss.map List.length)).get ⟨j, hj2⟩).2) []
        ++ List.replicate
          (((torch_sort_desc (ss.map List.length)).1).getD 0 0
            - (ss.getD (((sortedPairs (ss.map List.length)).get ⟨j, hj2⟩).2) []).length) 0 := by
    rw [List.getD_eq_getElem?_getD, List.getElem?_map, torch_sort_desc_snd,
      List.getElem?_map, hpj]
    rfl
  refine ⟨?_, ?_, ?_, ?_⟩
  · rw [hidj]; exact hplt2
  · rw [htlj, hidj, hval2]
  · rw [hidj, ← hval2]; exact hle
  · rw [htext, hidj]

theorem pad_sequences_ids_perm {ss texts : List (List Int)} {tl ids : List Nat}
    (h : pad_sequences ss = Except.ok (texts, tl, ids)) :
    ids.Perm (List.range ss.length) := by
  have hok := pad_sequences_ok ss (pad_sequences_ok_ne_nil h)
  rw [h] at hok
  simp only [Except.ok.injEq, Prod.mk.injEq] at hok
  obtain ⟨-, -, h3⟩ := hok
  subst h3
  have hperm := torch_sort_desc_ids_perm (ss.map List.length)
  rw [List.length_map] at hperm
  exact hperm

theorem perm_range_indexOf {ids : List Nat} {n k : Nat}
    (h : ids.Perm (List.range n)) (hk : k < n) :
    ids.indexOf k < ids.length ∧ ids.getD (ids.indexOf k) 0 = k := by
  have hmem : k ∈ ids := h.mem_iff.mpr (List.mem_range.mpr hk)
  have hlt : ids.indexOf k < ids.length := List.indexOf_lt_length.mpr hmem
  refine ⟨hlt, ?_⟩
  have hget := List.getElem_indexOf hlt
  rw [List.getD_eq_getElem?_getD, List.getElem?_eq_getElem hlt, hget]
  rfl

theorem reorder_outputs_getD {α : Type} (mels : List (List α)) (ids : List Nat)
    {k : Nat} (hk : k < ids.length) :
    (reorder_outputs mels ids).getD k [] = mels.getD (ids.indexOf k) [] := by
  unfold reorder_outputs
  have hk2 : k < (List.range ids.length).length := by simpa using hk
  rw [List.getD_eq_getElem?_getD, List.getElem?_map, List.getElem?_eq_getElem hk2]
  simp [List.getElem_range]

theorem trim_outputs_getD {α : Type} (mels : List (List α)) (lens : List Nat)
    {j : Nat} (hj : j < mels.length) (hj2 : j < lens.length) :
    (trim_outputs mels lens).getD j []
      = (mels.getD j []).take (lens.getD j 0) := by
  unfold trim_outputs
  have hz : j < (mels.zip lens).length := by rw [List.length_zip]; omega
  rw [List.getD_eq_getElem?_getD, List.getElem?_map, List.getElem?_eq_getElem hz]
  simp [List.getD_eq_getElem?_getD, List.getElem?_eq_getElem hj,
    List.getElem?_eq_getElem hj2, List.getElem_zip]

theorem pad_sequences_head_is_max {ss texts : List (List Int)} {tl ids : List Nat}
    (h : pad_sequences ss = Except.ok (texts, tl, ids)) :
    tl.getD 0 0 ∈ ss.map List.length ∧ ∀ s ∈ ss, s.length ≤ tl.getD 0 0 := by
  have hok := pad_sequences_ok ss (pad_sequences_ok_ne_nil h)
  rw [h] at hok
  simp only [Except.ok.injEq, Prod.mk.injEq] at hok
  obtain ⟨-, h2, -⟩ := hok
  subst h2
  constructor
  · exact torch_sort_desc_head_mem (by simpa using pad_sequences_ok_ne_nil h)
  · intro s hs
    obtain ⟨i, hi, hvs⟩ := List.mem_iff_getElem.mp hs
    have hi2 : i < (ss.map List.length).length := by simpa using hi
    have hmem := mem_sortedPairs_of_getElem hi2
    have hle := torch_sort_desc_value_le_head hmem
    have hmap := map_length_getD hi
    have hgd : ss.getD i [] = ss[i] := by
      rw [List.getD_eq_getElem?_getD, List.getElem?_eq_getElem hi]
      rfl
    rw [hmap, hgd, hvs] at hle
    exact hle

theorem sliceOddIdx_getElem? {α : Type} :
    ∀ (l : List α) (k : Nat), (sliceOddIdx l)[k]? = l[2 * k + 1]?
  | [], k => by simp [sliceOddIdx]
  | [a], k => by
      simp only [sliceOddIdx]
      rw [List.getElem?_eq_none (by simp), List.getElem?_eq_none (by simp)]
  | a :: b :: rest, 0 => by simp [sliceOddIdx]
  | a :: b :: rest, k + 1 => by
      show (b :: sliceOddIdx rest)[k + 1]? = (a :: b :: rest)[2 * (k + 1) + 1]?
      have harith : 2 * (k + 1) + 1 = 2 * k + 1 + 1 + 1 := by omega
      rw [harith, List.getElem?_cons_succ, List.getElem?_cons_succ,
        List.getElem?_cons_succ]
      exact sliceOddIdx_getElem? rest k

/-! ### Claim theorems -/

/-- C1: the inputs `[1,2]`, `[1,2,3,4]`, `[1]` (lengths 2, 4, 1) pack to
sorted order [original index 1, 0, 2], L_max = 4, padded rows `[1,2,3,4]`,
`[1,2,0,0]`, `[1,0,0,0]`, length vector `[4,2,1]` and permutation `[1,0,2]`;
a mock engine returning each row unchanged with valid lengths `[4,2,1]`
unpacks to `[[1,2],[1,2,3,4],[1]]`, the original sequences in original
order. -/
theorem C1_end_to_end_scenario :
    pad_sequences [[1, 2], [1, 2, 3, 4], [1]] =
      Except.ok ([[1, 2, 3, 4], [1, 2, 0, 0], [1, 0, 0, 0]],
        [4, 2, 1], [1, 0, 2]) ∧
    reorder_outputs
      (trim_outputs [[(1 : Int), 2, 3, 4], [1, 2, 0, 0], [1, 0, 0, 0]]
        [4, 2, 1]) [1, 0, 2]
      = [[1, 2], [1, 2, 3, 4], [1]] :=
  ⟨by rfl, by rfl⟩

/-- C4 counterexample: the claim says the sort performed by `pad_sequences`
is stable on equal lengths.  The source calls `torch.sort` without
`stable=True`; the contract of that call (`SortSpecD`) also admits, for
the length input `[1, 1]`, the output index list `[1, 0]`, which reverses the
original relative order of the two equally long sequences — the stable
result would be `[0, 1]`.  So stability is not guaranteed by the code. -/
theorem C4_sort_not_guaranteed_stable :
    SortSpecD [1, 1] [1, 1] [1, 0] ∧ ([1, 0] : List Nat) ≠ [0, 1] :=
  ⟨by decide, by decide⟩

/-- C4 (amended): for every index list admitted by the `torch.sort` contract —
stable or not — the unpack reordering puts the row originating from input `i`
back at output position `i`; hence two equally long inputs `i < j` end up at
output positions `i < j`, their original relative order, after the
pack → engine → unpack round trip. -/
theorem C4_round_trip_restores_tied_order (values outVals ids : List Nat)
    (hspec : SortSpecD values outVals ids)
    (i j : Nat) (hij : i < j) (hj : j < values.length)
    (heq : values.getD i 0 = values.getD j 0)
    (mels : List (List Int)) :
    ids.getD (ids.indexOf i) 0 = i ∧
    ids.getD (ids.indexOf j) 0 = j ∧
    (reorder_outputs mels ids).getD i [] = mels.getD (ids.indexOf i) [] ∧
    (reorder_outputs mels ids).getD j [] = mels.getD (ids.indexOf j) [] := by
  obtain ⟨hperm, -, -⟩ := hspec
  have hlen : ids.length = values.length := by simpa using hperm.length_eq
  have hi : i < values.length := lt_trans hij hj
  obtain ⟨-, hgi⟩ := perm_range_indexOf hperm hi
  obtain ⟨-, hgj⟩ := perm_range_indexOf hperm hj
  refine ⟨hgi, hgj, ?_, ?_⟩
  · exact reorder_outputs_getD mels ids (by omega)
  · exact reorder_outputs_getD mels ids (by omega)

/-- C4 witness: the amended round-trip theorem applied to the concrete
non-stable sort output `[1, 0]` for two inputs of equal length 1, with marker
rows `[[5]]` and `[[7]]`. -/
theorem C4_round_trip_restores_tied_order_witness :
    (SortSpecD [1, 1] [1, 1] [1, 0] ∧ 0 < 1 ∧ 1 < 2 ∧
      ([1, 1] : List Nat).getD 0 0 = ([1, 1] : List Nat).getD 1 0) ∧
    (([1, 0] : List Nat).getD (([1, 0] : List Nat).indexOf 0) 0 = 0 ∧
     ([1, 0] : List Nat).getD (([1, 0] : List Nat).indexOf 1) 0 = 1 ∧
     (reorder_outputs [[(5 : Int)], [7]] [1, 0]).getD 0 []
       = [[(5 : Int)], [7]].getD (([1, 0] : List Nat).indexOf 0) [] ∧
     (reorder_outputs [[(5 : Int)], [7]] [1, 0]).getD 1 []
       = [[(5 : Int)], [7]].getD (([1, 0] : List Nat).indexOf 1) []) :=
  ⟨⟨by decide, by decide, by decide, by decide⟩,
    C4_round_trip_restores_tied_order [1, 1] [1, 1] [1, 0] (by decide)
      0 1 (by decide) (by decide) (by decide) [[(5 : Int)], [7]]⟩

/-- C5 counterexample: packing the empty request set does not fail with the
specification's `EmptyBatchError` — no such exception class exists in the
source; the failure is the `IndexError` from `text_lengths[0]`. -/
theorem C5_not_empty_batch_error :
    pad_sequences [] ≠ Except.error PyError.emptyBatchError := by
  intro hcontra
  have hempty : pad_sequences ([] : List (List Int))
      = Except.error PyError.indexError := rfl
  rw [hempty] at hcontra
  exact PyError.noConfusion (Except.error.inj hcontra)

/-- C5 (amended): packing an empty request set fails, but with the
`IndexError` raised by reading `text_lengths[0]` from the empty sorted
lengths tensor, not with a dedicated `EmptyBatchError`. -/
theorem C5_empty_fails_with_index_error :
    pad_sequences [] = Except.error PyError.indexError := rfl

/-- C6 counterexample: a request set containing a zero-length sequence is
packed successfully — the empty sequence is silently padded to a full row of
zeros — instead of failing with `InvalidSequenceError` as claimed. -/
theorem C6_zero_length_is_accepted :
    pad_sequences [[1, 2], []] =
      Except.ok ([[1, 2], [0, 0]], [2, 0], [0, 1]) ∧
    pad_sequences [[1, 2], []] ≠ Except.error PyError.invalidSequenceError := by
  have hok : pad_sequences [[1, 2], []]
      = Except.ok ([[1, 2], [0, 0]], [2, 0], [0, 1]) := rfl
  refine ⟨hok, ?_⟩
  rw [hok]
  intro hcontra
  exact Except.noConfusion hcontra

/-- C6 (amended): packing never fails on a non-empty request set; in
particular a zero-length sequence raises nothing and becomes an all-zero row
of width L_max. -/
theorem C6_zero_length_padded_to_zero_row (ss : List (List Int))
    (hne : ss ≠ []) :
    ∃ texts tl ids, pad_sequences ss = Except.ok (texts, tl, ids) ∧
      ∀ j, j < ss.length → ss.getD (ids.getD j 0) [] = [] →
        texts.getD j [] = List.replicate (tl.getD 0 0) 0 := by
  have hok := pad_sequences_ok ss hne
  refine ⟨_, _, _, hok, ?_⟩
  intro j hj hempty
  obtain ⟨-, -, -, hrow⟩ := pad_sequences_row hok hj
  rw [hrow, hempty]
  simp

/-- C6 witness: the amended theorem at the concrete input `[[1,2], []]`,
whose empty second sequence lands at sorted position 1 as the row `[0,0]`. -/
theorem C6_zero_length_padded_to_zero_row_witness :
    ([[1, 2], []] : List (List Int)) ≠ [] ∧
    (∃ texts tl ids,
      pad_sequences [[1, 2], []] = Except.ok (texts, tl, ids) ∧
      ∀ j, j < ([[1, 2], []] : List (List Int)).length →
        ([[1, 2], []] : List (List Int)).getD (ids.getD j 0) [] = [] →
          texts.getD j [] = List.replicate (tl.getD 0 0) 0) :=
  ⟨by decide, C6_zero_length_padded_to_zero_row [[1, 2], []] (by decide)⟩

/-- C7 counterexample: for a single row of width 2 with reported valid length
5, the specification's unpacker fails with `LengthOverflowError`, but the
source's trimming succeeds and silently clamps the slice to the row's width —
`mel[:, :5]` of a 2-column row is the whole row. -/
theorem C7_overflow_is_clamped :
    unpack_spec [[(1 : Int), 2]] [5]
      = Except.error PyError.lengthOverflowError ∧
    trim_outputs [[(1 : Int), 2]] [5] = [[1, 2]] ∧ 2 < 5 :=
  ⟨by rfl, by rfl, by omega⟩

/-- C7 (amended): the source's unpacking never fails; each row is trimmed to
`take length`, so a reported length exceeding the row's width is clamped and
the trimmed row has `min length width` columns. -/
theorem C7_trim_never_fails_clamps (mels : List (List Int)) (lens : List Nat)
    (j : Nat) (hj : j < mels.length) (hj2 : j < lens.length) :
    (trim_outputs mels lens).getD j []
      = (mels.getD j []).take (lens.getD j 0) ∧
    ((trim_outputs mels lens).getD j []).length
      = min (lens.getD j 0) (mels.getD j []).length := by
  have h := trim_outputs_getD mels lens hj hj2
  refine ⟨h, ?_⟩
  rw [h, List.length_take]

/-- C7 witness: the amended theorem at the overflow input (row `[1,2]`,
reported length 5): the trimmed row is the clamped `[1,2]` of length
`min 5 2 = 2`. -/
theorem C7_trim_never_fails_clamps_witness :
    (0 < ([[(1 : Int), 2]] : List (List Int)).length ∧
      0 < ([5] : List Nat).length) ∧
    ((trim_outputs [[(1 : Int), 2]] [5]).getD 0 []
        = (([[(1 : Int), 2]] : List (List Int)).getD 0 []).take
            (([5] : List Nat).getD 0 0) ∧
      ((trim_outputs [[(1 : Int), 2]] [5]).getD 0 []).length
        = min (([5] : List Nat).getD 0 0)
            (([[(1 : Int), 2]] : List (List Int)).getD 0 []).length) :=
  ⟨⟨by decide, by decide⟩,
    C7_trim_never_fails_clamps [[(1 : Int), 2]] [5] 0 (by decide) (by decide)⟩

/-- C2: for every non-empty list of sequences each of length ≥ 1,
`pad_sequences` returns a rectangular batch: every row has width L_max (the
maximum input length, attained by some input), row `j`'s first
`LengthVector[j]` entries reproduce the source sequence at original index
`ids[j]` token-for-token, and the remaining entries up to L_max are the pad
value 0. -/
theorem C2_padded_batch_postcondition (ss : List (List Int)) (hne : ss ≠ [])
    (hpos : ∀ s ∈ ss, 1 ≤ s.length) :
    ∃ texts tl ids, pad_sequences ss = Except.ok (texts, tl, ids) ∧
      texts.length = ss.length ∧
      (∀ s ∈ ss, s.length ≤ tl.getD 0 0) ∧
      tl.getD 0 0 ∈ ss.map List.length ∧
      ∀ j, j < ss.length →
        (texts.getD j []).length = tl.getD 0 0 ∧
        tl.getD j 0 = (ss.getD (ids.getD j 0) []).length ∧
        (texts.getD j []).take (tl.getD j 0) = ss.getD (ids.getD j 0) [] ∧
        (texts.getD j []).drop (tl.getD j 0)
          = List.replicate (tl.getD 0 0 - tl.getD j 0) 0 := by
  have hok := pad_sequences_ok ss hne
  obtain ⟨hmem, hmax⟩ := pad_sequences_head_is_max hok
  obtain ⟨hTl, -, -⟩ := pad_sequences_lengths hok
  refine ⟨_, _, _, hok, hTl, hmax, hmem, ?_⟩
  intro j hj
  obtain ⟨hlt, htlj, hle, hrow⟩ := pad_sequences_row hok hj
  refine ⟨?_, htlj, ?_, ?_⟩
  · rw [hrow, List.length_append, List.length_replicate]
    omega
  · rw [htlj, hrow, List.take_left]
  · rw [htlj, hrow, List.drop_left]

/-- C2 witness: the postcondition at the concrete batch
`[[1,2],[1,2,3,4],[1]]`. -/
theorem C2_padded_batch_postcondition_witness :
    (([[1, 2], [1, 2, 3, 4], [1]] : List (List Int)) ≠ [] ∧
      ∀ s ∈ ([[1, 2], [1, 2, 3, 4], [1]] : List (List Int)), 1 ≤ s.length) ∧
    (∃ texts tl ids,
      pad_sequences [[1, 2], [1, 2, 3, 4], [1]] = Except.ok (texts, tl, ids) ∧
      texts.length = ([[1, 2], [1, 2, 3, 4], [1]] : List (List Int)).length ∧
      (∀ s ∈ ([[1, 2], [1, 2, 3, 4], [1]] : List (List Int)),
        s.length ≤ tl.getD 0 0) ∧
      tl.getD 0 0 ∈ ([[1, 2], [1, 2, 3, 4], [1]] : List (List Int)).map
        List.length ∧
      ∀ j, j < ([[1, 2], [1, 2, 3, 4], [1]] : List (List Int)).length →
        (texts.getD j []).length = tl.getD 0 0 ∧
        tl.getD j 0 = (([[1, 2], [1, 2, 3, 4], [1]] : List (List Int)).getD
          (ids.getD j 0) []).length ∧
        (texts.getD j []).take (tl.getD j 0)
          = ([[1, 2], [1, 2, 3, 4], [1]] : List (List Int)).getD
              (ids.getD j 0) [] ∧
        (texts.getD j []).drop (tl.getD j 0)
          = List.replicate (tl.getD 0 0 - tl.getD j 0) 0) :=
  ⟨⟨by decide, by decide⟩,
    C2_padded_batch_postcondition [[1, 2], [1, 2, 3, 4], [1]]
      (by decide) (by decide)⟩

/-- C3: for every non-empty request set, the sort permutation
`ids_sorted_decreasing` produced by `pad_sequences`, composed with the inverse
lookup `ids.index(i)` applied by the unpack step, maps the original index
vector `[0..N-1]` to itself; output position `k` of the reordering receives
exactly the row at the sorted position that originated from input `k`. -/
theorem C3_permutation_round_trip (ss : List (List Int)) (hne : ss ≠ []) :
    ∃ texts tl ids, pad_sequences ss = Except.ok (texts, tl, ids) ∧
      (List.range ss.length).map (fun k => ids.getD (ids.indexOf k) 0)
        = List.range ss.length ∧
      ∀ (mels : List (List Int)) (k : Nat), k < ss.length →
        (reorder_outputs mels ids).getD k [] = mels.getD (ids.indexOf k) [] := by
  have hok := pad_sequences_ok ss hne
  have hperm := pad_sequences_ids_perm hok
  obtain ⟨-, -, hIds⟩ := pad_sequences_lengths hok
  refine ⟨_, _, _, hok, ?_, ?_⟩
  · conv_rhs => rw [← List.map_id (List.range ss.length)]
    apply List.map_congr_left
    intro k hk
    exact (perm_range_indexOf hperm (List.mem_range.mp hk)).2
  · intro mels k hk
    exact reorder_outputs_getD mels _ (by omega)

/-- C3 witness: the round-trip identity at the concrete batch
`[[1,2],[1,2,3,4],[1]]` (permutation `[1,0,2]`). -/
theorem C3_permutation_round_trip_witness :
    ([[1, 2], [1, 2, 3, 4], [1]] : List (List Int)) ≠ [] ∧
    (∃ texts tl ids,
      pad_sequences [[1, 2], [1, 2, 3, 4], [1]] = Except.ok (texts, tl, ids) ∧
      (List.range ([[1, 2], [1, 2, 3, 4], [1]] : List (List Int)).length).map
          (fun k => ids.getD (ids.indexOf k) 0)
        = List.range ([[1, 2], [1, 2, 3, 4], [1]] : List (List Int)).length ∧
      ∀ (mels : List (List Int)) (k : Nat),
        k < ([[1, 2], [1, 2, 3, 4], [1]] : List (List Int)).length →
        (reorder_outputs mels ids).getD k []
          = mels.getD (ids.indexOf k) []) :=
  ⟨by decide, C3_permutation_round_trip [[1, 2], [1, 2, 3, 4], [1]] (by decide)⟩

/-- C8: the `MeasureTime` wrapper records the elapsed duration under its key
on every exit path of the wrapped block — both when the body returns normally
and when it raises — and does not alter the body's outcome. -/
theorem C8_measurement_recorded_on_every_exit (m : List (String × Int))
    (key : String) (tEnter tExit : Int)
    (body : Except PyError (List (List Int))) :
    getMeasurement (withMeasureTime m key tEnter tExit body).1 key
      = some (tExit - tEnter) ∧
    (withMeasureTime m key tEnter tExit body).2 = body := by
  cases body <;>
    simp [withMeasureTime, MeasureTimeCM.enterAt, MeasureTimeCM.exitAt,
      setMeasurement, getMeasurement]

/-- C9: the texts passed on to encoding are exactly the lines at odd indices
1, 3, 5, … of the input file, each stripped of surrounding whitespace; lines
at even indices are discarded.  Stated positionally: entry `k` of
`select_texts` is the stripped line at index `2k + 1`, and is absent exactly
when that line does not exist. -/
theorem C9_texts_are_odd_lines_stripped (lines : List String) (k : Nat) :
    (select_texts lines)[k]? = (lines[2 * k + 1]?).map String.trim := by
  unfold select_texts read_sentences
  rw [sliceOddIdx_getElem?, List.getElem?_map]

/-- C10: the program persists a single output artifact — the file
`eval_mel.npy` holding the concatenation, along the time axis, of the trimmed
outputs in original request order: segment `k` of the concatenation is the
trimmed row whose origin (under the sort permutation) is input `k`. -/
theorem C10_single_artifact_concat_original_order (ss mels : List (List Int))
    (lens : List Nat) (hne : ss ≠ []) :
    ∃ texts tl ids, pad_sequences ss = Except.ok (texts, tl, ids) ∧
      (main_save mels lens ids).length = 1 ∧
      main_save mels lens ids = [("eval_mel.npy",
        ((List.range ss.length).map (fun k =>
          (trim_outputs mels lens).getD (ids.indexOf k) [])).flatten)] ∧
      (∀ k, k < ss.length →
        (reorder_outputs (trim_outputs mels lens) ids).getD k []
          = (trim_outputs mels lens).getD (ids.indexOf k) []) ∧
      ∀ k, k < ss.length → ids.getD (ids.indexOf k) 0 = k := by
  have hok := pad_sequences_ok ss hne
  have hperm := pad_sequences_ids_perm hok
  obtain ⟨-, -, hIds⟩ := pad_sequences_lengths hok
  refine ⟨_, _, _, hok, rfl, ?_, ?_, ?_⟩
  · unfold main_save reorder_outputs
    rw [hIds]
  · intro k hk
    exact reorder_outputs_getD _ _ (by omega)
  · intro k hk
    exact (perm_range_indexOf hperm hk).2

/-- C10 witness: the single-artifact shape at the concrete batch
`[[1,2],[1,2,3,4],[1]]` with the identity mock engine. -/
theorem C10_single_artifact_witness :
    ([[1, 2], [1, 2, 3, 4], [1]] : List (List Int)) ≠ [] ∧
    (∃ texts tl ids,
      pad_sequences [[1, 2], [1, 2, 3, 4], [1]] = Except.ok (texts, tl, ids) ∧
      (main_save [[(1 : Int), 2, 3, 4], [1, 2, 0, 0], [1, 0, 0, 0]]
        [4, 2, 1] ids).length = 1 ∧
      main_save [[(1 : Int), 2, 3, 4], [1, 2, 0, 0], [1, 0, 0, 0]]
          [4, 2, 1] ids
        = [("eval_mel.npy",
          ((List.range ([[1, 2], [1, 2, 3, 4], [1]] :
              List (List Int)).length).map (fun k =>
            (trim_outputs [[(1 : Int), 2, 3, 4], [1, 2, 0, 0], [1, 0, 0, 0]]
              [4, 2, 1]).getD (ids.indexOf k) [])).flatten)] ∧
      (∀ k, k < ([[1, 2], [1, 2, 3, 4], [1]] : List (List Int)).length →
        (reorder_outputs (trim_outputs
            [[(1 : Int), 2, 3, 4], [1, 2, 0, 0], [1, 0, 0, 0]] [4, 2, 1])
          ids).getD k []
          = (trim_outputs [[(1 : Int), 2, 3, 4], [1, 2, 0, 0], [1, 0, 0, 0]]
              [4, 2, 1]).getD (ids.indexOf k) []) ∧
      ∀ k, k < ([[1, 2], [1, 2, 3, 4], [1]] : List (List Int)).length →
        ids.getD (ids.indexOf k) 0 = k) :=
  ⟨by decide,
    C10_single_artifact_concat_original_order [[1, 2], [1, 2, 3, 4], [1]]
      [[(1 : Int), 2, 3, 4], [1, 2, 0, 0], [1, 0, 0, 0]] [4, 2, 1]
      (by decide)⟩
